import Mathlib

/-!
Verification development for the MinerU document-conversion service
(`apps/agents/src/services/mineruService.ts`).

The TypeScript source is embedded shallowly:
* machine-level effects (HTTP fetches, timers) are turned into explicit
  oracle parameters (`ExtractResultEntry` streams, `FetchResponse` records,
  a `TransportOracle` for the full pipeline);
* the `Date.now()` clock and the random image-id generator are passed in as
  explicit parameters (`now : Nat`, `ids : Nat → String`);
* the ZIP archive handed to `extractZipContent` is abstracted at the yauzl
  boundary: either the archive fails to open (`ZipContainer.corrupt`) or it
  enumerates a list of entries in archive order (`ZipContainer.entries`).

Timing model for the poll loop: the n-th status poll (0-based) is issued at
elapsed time `n * pollIntervalMs` — each loop iteration sleeps exactly
`pollInterval` milliseconds and the poll itself is instantaneous.  Under that
idealisation `Date.now() - startTime < maxWaitTime` at the top of iteration n
is `n * pollIntervalMs < maxWaitTime`.
-/

namespace Mineru

/-! ## Job status data model (`MineraBatchResultResponse`) -/

/-- The six `state` values of an `extract_result` entry:
`'waiting-file' | 'pending' | 'running' | 'done' | 'failed' | 'converting'`. -/
inductive JobState where
  | waitingFile
  | pending
  | running
  | converting
  | done
  | failed
deriving DecidableEq

/-- One element of `data.extract_result` in a batch-status response.
The fields `file_name`, `data_id` and `extract_progress` are never read by
`waitForBatchCompletion` and are omitted. -/
structure ExtractResultEntry where
  state : JobState
  full_zip_url : Option String
  err_msg : Option String
deriving DecidableEq

/-- Error taxonomy: one constructor per `throw new Error(...)` site reached by
the modelled operations.
* `serviceUnavailable` ≙ 'Mineru service is not enabled or not configured properly'
* `uploadUrlHttpError` ≙ 'Mineru upload URL request failed: status statusText'
* `uploadUrlApiError`  ≙ 'Mineru upload URL request failed: msg'
* `noUploadUrl`        ≙ 'No upload URL returned from Mineru'
* `fileUploadFailed`   ≙ 'File upload failed: status statusText'
* `noExtractionResults` ≙ 'No extraction results found'
* `missingLocator`     ≙ 'Task completed but no download URL provided'
* `remoteProcessingFailed msg` ≙ 'Task failed: msg'
* `timeout`            ≙ 'Task timeout: Processing took too long'
* `downloadFailed`     ≙ 'Failed to download result: status' -/
inductive MineruError where
  | serviceUnavailable
  | uploadUrlHttpError (status : Nat) (statusText : String)
  | uploadUrlApiError (msg : String)
  | noUploadUrl
  | fileUploadFailed (status : Nat) (statusText : String)
  | noExtractionResults
  | missingLocator
  | remoteProcessingFailed (msg : String)
  | timeout
  | downloadFailed (status : Nat)
deriving DecidableEq

/-- JavaScript `a || b` on an optional string: `undefined` and the empty
string are falsy. -/
def jsOrString (o : Option String) (dflt : String) : String :=
  match o with
  | some s => if s = "" then dflt else s
  | none => dflt

/-! ## Configuration and `isEnabled` -/

/-- The environment-derived configuration read in the constructor:
`MINERU_API_URL`, `MINERU_API_TOKEN` (both default to `''`) and
`MINERU_ENABLED === 'true'`. -/
structure MineruConfig where
  apiUrl : String
  apiToken : String
  enabled : Bool
deriving DecidableEq

/-- `isEnabled(): this.enabled && !!this.apiUrl && !!this.apiToken`.
String truthiness is non-emptiness. -/
def isEnabled (cfg : MineruConfig) : Bool :=
  cfg.enabled && !(cfg.apiUrl == "") && !(cfg.apiToken == "")

/-! ## `requestUploadUrl` -/

/-- The `data` object of a `MineruUploadResponse`. -/
structure UploadUrlData where
  batch_id : String
  file_urls : List String
deriving DecidableEq

/-- Application-level payload of the upload-URL POST response. -/
structure MineruUploadResponse where
  code : Int
  msg : String
  data : UploadUrlData
deriving DecidableEq

/-- The observable part of the `fetch` response for the upload-URL request. -/
structure FetchResponse where
  ok : Bool
  status : Nat
  statusText : String
  body : MineruUploadResponse
deriving DecidableEq

/-- `requestUploadUrl(fileName)`.  The second component counts the network
calls issued (the single `fetch` of the body, when reached).  The
enabled/configured check happens before the fetch, so the disabled path
reports `0` network calls. -/
def requestUploadUrl (cfg : MineruConfig) (resp : FetchResponse) :
    Except MineruError (String × String) × Nat :=
  if !(isEnabled cfg) then
    (.error .serviceUnavailable, 0)
  else if !resp.ok then
    (.error (.uploadUrlHttpError resp.status resp.statusText), 1)
  else if resp.body.code != 0 then
    (.error (.uploadUrlApiError resp.body.msg), 1)
  else
    match resp.body.data.file_urls with
    | [] => (.error .noUploadUrl, 1)
    | url :: _ => (.ok (resp.body.data.batch_id, url), 1)

/-! ## `waitForBatchCompletion`

`statuses n` is the `data` returned by the (n+1)-th successful
`getBatchResult` call (`extract_result` as a list; a missing field is the
empty list).  The result pairs the outcome with the total number of status
polls issued. -/

/-- `const pollInterval = 5000`. -/
def pollIntervalMs : Nat := 5000

theorem pollIntervalMs_eq : pollIntervalMs = 5000 := rfl

/-- The `while (Date.now() - startTime < maxWaitTime)` loop, entered with `n`
polls already issued (so at elapsed time `n * pollIntervalMs`).  The locator
check `if (!fileResult.full_zip_url)` uses JavaScript truthiness: both a
missing (`none`) and an empty-string locator throw the missing-locator
error. -/
def waitLoop (statuses : Nat → List ExtractResultEntry) (maxWaitTime : Nat)
    (n : Nat) : Except MineruError String × Nat :=
  if h : n * pollIntervalMs < maxWaitTime then
    match (statuses n).head? with
    | none => (.error .noExtractionResults, n + 1)
    | some fileResult =>
      match fileResult.state with
      | .done =>
        match fileResult.full_zip_url with
        | none => (.error .missingLocator, n + 1)
        | some url =>
          if url = "" then (.error .missingLocator, n + 1)
          else (.ok url, n + 1)
      | .failed =>
        (.error (.remoteProcessingFailed (jsOrString fileResult.err_msg "Unknown error")), n + 1)
      | _ => waitLoop statuses maxWaitTime (n + 1)
  else
    (.error .timeout, n)
termination_by maxWaitTime - n * pollIntervalMs
decreasing_by
  simp only [pollIntervalMs_eq] at h ⊢
  omega

/-- `waitForBatchCompletion(batchId, maxWaitTime = 300000)`: run the poll
loop from elapsed time 0. -/
def waitForBatchCompletion (statuses : Nat → List ExtractResultEntry)
    (maxWaitTime : Nat) : Except MineruError String × Nat :=
  waitLoop statuses maxWaitTime 0

/-- A poll response on which the loop keeps polling: a non-empty
`extract_result` whose first entry is in one of the four transient states. -/
def transientPoll (data : List ExtractResultEntry) : Bool :=
  match data.head? with
  | none => false
  | some fileResult =>
    match fileResult.state with
    | .done => false
    | .failed => false
    | _ => true

/-! ### Poll-loop lemmas -/

theorem waitLoop_step (statuses : Nat → List ExtractResultEntry)
    (maxWaitTime n : Nat) (hb : n * pollIntervalMs < maxWaitTime)
    (ht : transientPoll (statuses n) = true) :
    waitLoop statuses maxWaitTime n = waitLoop statuses maxWaitTime (n + 1) := by
  rw [waitLoop, dif_pos hb]
  unfold transientPoll at ht
  rcases hh : (statuses n).head? with _ | fr
  · simp only [hh] at ht
    exact Bool.noConfusion ht
  · simp only [hh] at ht
    cases hs : fr.state <;> simp only [hh, hs] at ht ⊢ <;>
      first
        | rfl
        | exact Bool.noConfusion ht

theorem waitLoop_reach (statuses : Nat → List ExtractResultEntry)
    (maxWaitTime : Nat) :
    ∀ n, n * pollIntervalMs < maxWaitTime →
      (∀ m, m < n → transientPoll (statuses m) = true) →
      waitLoop statuses maxWaitTime 0 = waitLoop statuses maxWaitTime n := by
  intro n
  induction n with
  | zero => intro _ _; rfl
  | succ k ih =>
    intro hb ht
    have hk : k * pollIntervalMs < maxWaitTime := by
      simp only [pollIntervalMs_eq] at hb ⊢; omega
    have h0 : waitLoop statuses maxWaitTime 0 = waitLoop statuses maxWaitTime k :=
      ih hk (fun m hm => ht m (Nat.lt_succ_of_lt hm))
    rw [h0]
    exact waitLoop_step statuses maxWaitTime k hk (ht k (Nat.lt_succ_self k))

/-- Reaching a `done` poll with a truthy (non-empty) locator returns it,
with no poll after the (n+1)-th. -/
theorem waitLoop_done (statuses : Nat → List ExtractResultEntry)
    (maxWaitTime n : Nat) (fr : ExtractResultEntry) (url : String)
    (hb : n * pollIntervalMs < maxWaitTime)
    (ht : ∀ m, m < n → transientPoll (statuses m) = true)
    (hh : (statuses n).head? = some fr)
    (hs : fr.state = .done) (hu : fr.full_zip_url = some url)
    (hne : url ≠ "") :
    waitForBatchCompletion statuses maxWaitTime = (.ok url, n + 1) := by
  unfold waitForBatchCompletion
  rw [waitLoop_reach statuses maxWaitTime n hb ht, waitLoop, dif_pos hb]
  simp only [hh, hs, hu]
  rw [if_neg hne]

/-- A `done` poll with a falsy locator — missing or the empty string — fails
with the missing-locator error at that poll. -/
theorem waitLoop_done_noUrl (statuses : Nat → List ExtractResultEntry)
    (maxWaitTime n : Nat) (fr : ExtractResultEntry)
    (hb : n * pollIntervalMs < maxWaitTime)
    (ht : ∀ m, m < n → transientPoll (statuses m) = true)
    (hh : (statuses n).head? = some fr)
    (hs : fr.state = .done)
    (hu : fr.full_zip_url = none ∨ fr.full_zip_url = some "") :
    waitForBatchCompletion statuses maxWaitTime = (.error .missingLocator, n + 1) := by
  unfold waitForBatchCompletion
  rw [waitLoop_reach statuses maxWaitTime n hb ht, waitLoop, dif_pos hb]
  rcases hu with hu | hu <;> simp only [hh, hs, hu] <;> rfl

theorem waitLoop_failed (statuses : Nat → List ExtractResultEntry)
    (maxWaitTime n : Nat) (fr : ExtractResultEntry)
    (hb : n * pollIntervalMs < maxWaitTime)
    (ht : ∀ m, m < n → transientPoll (statuses m) = true)
    (hh : (statuses n).head? = some fr)
    (hs : fr.state = .failed) :
    waitForBatchCompletion statuses maxWaitTime =
      (.error (.remoteProcessingFailed (jsOrString fr.err_msg "Unknown error")), n + 1) := by
  unfold waitForBatchCompletion
  rw [waitLoop_reach statuses maxWaitTime n hb ht, waitLoop, dif_pos hb]
  simp only [hh, hs]

/-- If every in-budget poll is transient the loop times out after exactly
`⌈maxWaitTime / pollIntervalMs⌉` polls.  Stated from an arbitrary start index
with explicit fuel for the induction. -/
theorem waitLoop_timeout_from (statuses : Nat → List ExtractResultEntry)
    (maxWaitTime : Nat) :
    ∀ fuel n, maxWaitTime - n * pollIntervalMs ≤ fuel →
      (∀ m, n ≤ m → m * pollIntervalMs < maxWaitTime → transientPoll (statuses m) = true) →
      waitLoop statuses maxWaitTime n =
        (.error .timeout, max n ((maxWaitTime + pollIntervalMs - 1) / pollIntervalMs)) := by
  intro fuel
  induction fuel with
  | zero =>
    intro n hf _
    have hn : ¬ n * pollIntervalMs < maxWaitTime := by
      simp only [pollIntervalMs_eq] at hf ⊢; omega
    rw [waitLoop, dif_neg hn]
    have : max n ((maxWaitTime + pollIntervalMs - 1) / pollIntervalMs) = n := by
      simp only [pollIntervalMs_eq] at hf ⊢; omega
    rw [this]
  | succ k ih =>
    intro n hf ht
    by_cases hb : n * pollIntervalMs < maxWaitTime
    · rw [waitLoop_step statuses maxWaitTime n hb (ht n le_rfl hb)]
      have hstep := ih (n + 1) (by simp only [pollIntervalMs_eq] at hf hb ⊢; omega)
        (fun m hm hbm => ht m (by omega) hbm)
      rw [hstep]
      have : max (n + 1) ((maxWaitTime + pollIntervalMs - 1) / pollIntervalMs) =
          max n ((maxWaitTime + pollIntervalMs - 1) / pollIntervalMs) := by
        simp only [pollIntervalMs_eq] at hb ⊢; omega
      rw [this]
    · rw [waitLoop, dif_neg hb]
      have : max n ((maxWaitTime + pollIntervalMs - 1) / pollIntervalMs) = n := by
        simp only [pollIntervalMs_eq] at hb ⊢; omega
      rw [this]

theorem waitForBatchCompletion_timeout_count
    (statuses : Nat → List ExtractResultEntry) (maxWaitTime : Nat)
    (ht : ∀ m, m * pollIntervalMs < maxWaitTime → transientPoll (statuses m) = true) :
    waitForBatchCompletion statuses maxWaitTime =
      (.error .timeout, (maxWaitTime + pollIntervalMs - 1) / pollIntervalMs) := by
  unfold waitForBatchCompletion
  rw [waitLoop_timeout_from statuses maxWaitTime maxWaitTime 0 (by omega)
    (fun m _ hbm => ht m hbm)]
  simp

/-- The poll counter never decreases below the start index. -/
theorem waitLoop_count_ge (statuses : Nat → List ExtractResultEntry)
    (maxWaitTime : Nat) :
    ∀ fuel n, maxWaitTime - n * pollIntervalMs ≤ fuel →
      n ≤ (waitLoop statuses maxWaitTime n).2 := by
  intro fuel
  induction fuel with
  | zero =>
    intro n hf
    have hn : ¬ n * pollIntervalMs < maxWaitTime := by
      simp only [pollIntervalMs_eq] at hf ⊢; omega
    rw [waitLoop, dif_neg hn]
  | succ k ih =>
    intro n hf
    rw [waitLoop]
    by_cases hb : n * pollIntervalMs < maxWaitTime
    · rw [dif_pos hb]
      have hrec : n + 1 ≤ (waitLoop statuses maxWaitTime (n + 1)).2 :=
        ih (n + 1) (by simp only [pollIntervalMs_eq] at hf hb ⊢; omega)
      rcases hh : (statuses n).head? with _ | fr
      · simp only [hh]
        exact Nat.le_succ n
      · simp only [hh]
        cases hs : fr.state <;> simp only [hs]
        · omega
        · omega
        · omega
        · omega
        · cases hu : fr.full_zip_url with
          | none => simp only [hu]; exact Nat.le_succ n
          | some url =>
            simp only [hu]
            by_cases he : url = ""
            · rw [if_pos he]; exact Nat.le_succ n
            · rw [if_neg he]; exact Nat.le_succ n
        · exact Nat.le_succ n
    · rw [dif_neg hb]

/-! ## Cancellation (spec §5) -/

/-- Modelled from the spec: §5 requires that `awaitCompletion` honor an
externally supplied cancellation signal/deadline in addition to `maxWait`,
"aborting the poll loop promptly without issuing further network calls once
canceled".  A cancellation signaled after `cancelAfterPolls` polls therefore
bounds the total number of polls by `cancelAfterPolls`.  The source's
`waitForBatchCompletion` takes no cancellation input, so the quantification
below ranges over every possible cancellation point of every execution. -/
def honorsExternalCancellation : Prop :=
  ∀ (statuses : Nat → List ExtractResultEntry) (maxWaitTime cancelAfterPolls : Nat),
    (waitForBatchCompletion statuses maxWaitTime).2 ≤ cancelAfterPolls

/-! ## Demo status streams for witnesses -/

/-- First poll transient, second poll `done` with a locator. -/
def demoDoneStatuses : Nat → List ExtractResultEntry := fun k =>
  if k = 0 then [⟨JobState.running, none, none⟩]
  else [⟨JobState.done, some "https://example.com/result.zip", none⟩]

/-- Every poll transient. -/
def demoTransientStatuses : Nat → List ExtractResultEntry := fun _ =>
  [⟨JobState.running, none, none⟩]

/-! ## Claim theorems: job controller -/

/-- C1: on each poll of `waitForBatchCompletion`, once the observed first
extraction result is terminal the call ends at that poll — `done` with a
truthy locator returns the `full_zip_url`, `done` with an absent locator
(missing, or the empty string, which JavaScript `!` treats the same way)
fails with the missing-locator error, `failed` fails with the remote error
message — and the poll counter stops at `n + 1`, so no further status polls
are issued. -/
theorem waitForBatchCompletion_terminal_spec
    (statuses : Nat → List ExtractResultEntry) (maxWaitTime n : Nat)
    (fr : ExtractResultEntry)
    (hb : n * pollIntervalMs < maxWaitTime)
    (ht : ∀ m, m < n → transientPoll (statuses m) = true)
    (hh : (statuses n).head? = some fr) :
    (∀ url, fr.state = .done → fr.full_zip_url = some url → url ≠ "" →
      waitForBatchCompletion statuses maxWaitTime = (.ok url, n + 1)) ∧
    (fr.state = .done → (fr.full_zip_url = none ∨ fr.full_zip_url = some "") →
      waitForBatchCompletion statuses maxWaitTime = (.error .missingLocator, n + 1)) ∧
    (fr.state = .failed →
      waitForBatchCompletion statuses maxWaitTime =
        (.error (.remoteProcessingFailed (jsOrString fr.err_msg "Unknown error")), n + 1)) := by
  refine ⟨fun url hs hu hne => ?_, fun hs hu => ?_, fun hs => ?_⟩
  · exact waitLoop_done statuses maxWaitTime n fr url hb ht hh hs hu hne
  · exact waitLoop_done_noUrl statuses maxWaitTime n fr hb ht hh hs hu
  · exact waitLoop_failed statuses maxWaitTime n fr hb ht hh hs

theorem waitForBatchCompletion_terminal_spec_witness :
    waitForBatchCompletion demoDoneStatuses 300000 =
      (.ok "https://example.com/result.zip", 2) := by
  have h := waitForBatchCompletion_terminal_spec demoDoneStatuses 300000 1
    ⟨JobState.done, some "https://example.com/result.zip", none⟩
    (by decide)
    (fun m hm => by rw [Nat.lt_one_iff.mp hm]; decide)
    rfl
  exact h.1 "https://example.com/result.zip" rfl rfl (by decide)

/-- C2: if every poll inside the wait budget observes a non-terminal state,
`waitForBatchCompletion` fails with the timeout error having issued exactly
`⌈maxWaitTime / pollIntervalMs⌉` polls (within the claim's ±1), and no polls
after the budget is exhausted. -/
theorem waitForBatchCompletion_timeout_spec
    (statuses : Nat → List ExtractResultEntry) (maxWaitTime : Nat)
    (ht : ∀ m, m * pollIntervalMs < maxWaitTime → transientPoll (statuses m) = true) :
    waitForBatchCompletion statuses maxWaitTime =
      (.error .timeout, (maxWaitTime + pollIntervalMs - 1) / pollIntervalMs) :=
  waitForBatchCompletion_timeout_count statuses maxWaitTime ht

theorem waitForBatchCompletion_timeout_spec_witness :
    waitForBatchCompletion demoTransientStatuses 300000 = (.error .timeout, 60) := by
  have h := waitForBatchCompletion_timeout_spec demoTransientStatuses 300000
    (fun m _ => rfl)
  exact h.trans rfl

/-- C9: a poll whose batch-status response carries no extraction results
(`extract_result` missing or empty, modelled as the empty list) makes
`waitForBatchCompletion` fail immediately with the no-extraction-results
error at that poll, rather than continuing to poll. -/
theorem waitForBatchCompletion_empty_results_spec
    (statuses : Nat → List ExtractResultEntry) (maxWaitTime n : Nat)
    (hb : n * pollIntervalMs < maxWaitTime)
    (ht : ∀ m, m < n → transientPoll (statuses m) = true)
    (hempty : statuses n = []) :
    waitForBatchCompletion statuses maxWaitTime =
      (.error .noExtractionResults, n + 1) := by
  unfold waitForBatchCompletion
  rw [waitLoop_reach statuses maxWaitTime n hb ht, waitLoop, dif_pos hb]
  simp only [hempty, List.head?_nil]

theorem waitForBatchCompletion_empty_results_spec_witness :
    waitForBatchCompletion (fun _ => ([] : List ExtractResultEntry)) 300000 =
      (.error .noExtractionResults, 1) :=
  waitForBatchCompletion_empty_results_spec (fun _ => []) 300000 0
    (by decide) (fun m hm => absurd hm (Nat.not_lt_zero m)) rfl

/-- C8 counterexample: the claim that `waitForBatchCompletion` honors an
external cancellation signal is false — the function has no cancellation
input, so with all-transient polls and a 10-second budget it issues its
second poll even when cancellation was signaled right after the first. -/
theorem waitForBatchCompletion_ignores_cancellation_cex :
    ¬ honorsExternalCancellation := by
  intro h
  have hc := h demoTransientStatuses 10000 1
  have ht := waitForBatchCompletion_timeout_count demoTransientStatuses 10000
    (fun m _ => rfl)
  rw [ht] at hc
  simp only [pollIntervalMs_eq] at hc
  omega

/-- C8 (amended): `waitForBatchCompletion` supports no external cancellation;
only a terminal status or the `maxWaitTime` budget stops the loop.  In
particular, after a transient first poll, whenever the budget allows a second
poll that poll is always issued — no external event can prevent it. -/
theorem waitForBatchCompletion_no_cancellation_spec
    (statuses : Nat → List ExtractResultEntry) (maxWaitTime : Nat)
    (h1 : transientPoll (statuses 0) = true)
    (h2 : pollIntervalMs < maxWaitTime) :
    2 ≤ (waitForBatchCompletion statuses maxWaitTime).2 := by
  unfold waitForBatchCompletion
  have h0 : 0 * pollIntervalMs < maxWaitTime := by omega
  have h1b : 1 * pollIntervalMs < maxWaitTime := by omega
  rw [waitLoop_step statuses maxWaitTime 0 h0 h1]
  rw [waitLoop, dif_pos h1b]
  have hrec : 2 ≤ (waitLoop statuses maxWaitTime 2).2 :=
    waitLoop_count_ge statuses maxWaitTime maxWaitTime 2 (by omega)
  rcases hh : (statuses 1).head? with _ | fr
  · simp only [hh]
    exact Nat.le_refl 2
  · simp only [hh]
    cases hs : fr.state <;> simp only [hs]
    · exact hrec
    · exact hrec
    · exact hrec
    · exact hrec
    · cases hu : fr.full_zip_url with
      | none => simp only [hu]; exact Nat.le_refl 2
      | some url =>
        simp only [hu]
        by_cases he : url = ""
        · rw [if_pos he]
        · rw [if_neg he]
    · exact Nat.le_refl 2

theorem waitForBatchCompletion_no_cancellation_spec_witness :
    2 ≤ (waitForBatchCompletion demoTransientStatuses 300000).2 :=
  waitForBatchCompletion_no_cancellation_spec demoTransientStatuses 300000
    (by decide) (by decide)

/-- C6: when the service is disabled or unconfigured (`MINERU_ENABLED` not
`'true'`, or empty base URL, or empty token), `requestUploadUrl` fails with
the service-unavailable error and issues zero network calls — the check
precedes the fetch. -/
theorem requestUploadUrl_disabled_spec (cfg : MineruConfig) (resp : FetchResponse)
    (h : cfg.enabled = false ∨ cfg.apiUrl = "" ∨ cfg.apiToken = "") :
    requestUploadUrl cfg resp = (.error .serviceUnavailable, 0) := by
  have he : isEnabled cfg = false := by
    unfold isEnabled
    rcases h with h | h | h <;> simp [h]
  unfold requestUploadUrl
  rw [he]
  rfl

theorem requestUploadUrl_disabled_spec_witness :
    requestUploadUrl ⟨"", "", false⟩ ⟨true, 200, "OK", ⟨0, "ok", ⟨"b1", ["u1"]⟩⟩⟩ =
      (.error .serviceUnavailable, 0) :=
  requestUploadUrl_disabled_spec ⟨"", "", false⟩
    ⟨true, 200, "OK", ⟨0, "ok", ⟨"b1", ["u1"]⟩⟩⟩ (Or.inl rfl)

/-! ## Character-list translations of the JavaScript string operations -/

/-- `pat` is a prefix of the second list (character-wise). -/
def startsWithChars : List Char → List Char → Bool
  | [], _ => true
  | _ :: _, [] => false
  | p :: ps, c :: cs => p == c && startsWithChars ps cs

/-- JavaScript `s.endsWith(suffix)`. -/
def listEndsWith (s suffix : List Char) : Bool :=
  startsWithChars suffix.reverse s.reverse

/-- JavaScript `s.endsWith(suffix)` on strings. -/
def strEndsWith (s suffix : String) : Bool :=
  listEndsWith s.data suffix.data

/-- JavaScript `s.toLowerCase()` (ASCII range, which is all the source uses). -/
def strToLower (s : String) : String := String.mk (s.data.map Char.toLower)

/-- `pat` occurs as a contiguous run somewhere in the list. -/
def subOccurs (pat : List Char) : List Char → Bool
  | [] => pat.isEmpty
  | c :: rest => startsWithChars pat (c :: rest) || subOccurs pat rest

/-- `pat` occurs as a substring of `s`. -/
def strContains (s pat : String) : Bool := subOccurs pat.data s.data

/-- JavaScript `s.split('.').pop()`: the segment after the last `'.'`, or the
whole string when there is no dot. -/
def extAfterLastDot (cs : List Char) : List Char :=
  (cs.reverse.takeWhile (fun c => !(c == '.'))).reverse

/-- JavaScript `s.trim()` on character lists (whitespace in the source is
always ASCII). -/
def trimChars (cs : List Char) : List Char :=
  ((cs.dropWhile Char.isWhitespace).reverse.dropWhile Char.isWhitespace).reverse

/-- JavaScript `s.trim()`. -/
def strTrim (s : String) : String := String.mk (trimChars s.data)

/-- Split on `'\n'` (JavaScript `s.split('\n')`). -/
def linesOf : List Char → List (List Char)
  | [] => [[]]
  | c :: rest =>
    if c = '\n' then [] :: linesOf rest
    else
      match linesOf rest with
      | l :: ls => (c :: l) :: ls
      | [] => [[c]]

/-- Lossy UTF-8 decoding worker: structural fuel (one unit per decoded
character, each of which consumes at least one byte), so `fuel = cs.length`
always suffices; invalid sequences become U+FFFD. -/
def utf8DecodeAux : Nat → List Nat → List Char
  | 0, _ => []
  | _ + 1, [] => []
  | fuel + 1, b :: rest =>
    if b < 128 then Char.ofNat b :: utf8DecodeAux fuel rest
    else if b < 194 then '\uFFFD' :: utf8DecodeAux fuel rest
    else if b < 224 then
      match rest with
      | [] => ['\uFFFD']
      | b1 :: rest2 =>
        if 128 ≤ b1 ∧ b1 < 192 then
          Char.ofNat ((b - 192) * 64 + (b1 - 128)) :: utf8DecodeAux fuel rest2
        else '\uFFFD' :: utf8DecodeAux fuel (b1 :: rest2)
    else if b < 240 then
      match rest with
      | b1 :: b2 :: rest3 =>
        if (128 ≤ b1 ∧ b1 < 192) ∧ (128 ≤ b2 ∧ b2 < 192) then
          (if (b - 224) * 4096 + (b1 - 128) * 64 + (b2 - 128) < 2048 ∨
              (55296 ≤ (b - 224) * 4096 + (b1 - 128) * 64 + (b2 - 128) ∧
                (b - 224) * 4096 + (b1 - 128) * 64 + (b2 - 128) < 57344) then
            '\uFFFD' :: utf8DecodeAux fuel rest3
          else
            Char.ofNat ((b - 224) * 4096 + (b1 - 128) * 64 + (b2 - 128)) :: utf8DecodeAux fuel rest3)
        else '\uFFFD' :: utf8DecodeAux fuel (b1 :: b2 :: rest3)
      | _ => ['\uFFFD']
    else if b < 245 then
      match rest with
      | b1 :: b2 :: b3 :: rest4 =>
        if (128 ≤ b1 ∧ b1 < 192) ∧ (128 ≤ b2 ∧ b2 < 192) ∧ (128 ≤ b3 ∧ b3 < 192) then
          (if (b - 240) * 262144 + (b1 - 128) * 4096 + (b2 - 128) * 64 + (b3 - 128) < 65536 ∨
              1114112 ≤ (b - 240) * 262144 + (b1 - 128) * 4096 + (b2 - 128) * 64 + (b3 - 128) then
            '\uFFFD' :: utf8DecodeAux fuel rest4
          else
            Char.ofNat ((b - 240) * 262144 + (b1 - 128) * 4096 + (b2 - 128) * 64 + (b3 - 128)) ::
              utf8DecodeAux fuel rest4)
        else '\uFFFD' :: utf8DecodeAux fuel (b1 :: b2 :: b3 :: rest4)
      | _ => ['\uFFFD']
    else '\uFFFD' :: utf8DecodeAux fuel rest

/-- Node `Buffer.prototype.toString('utf8')`: lossy UTF-8 decoding; invalid
sequences become U+FFFD. -/
def utf8DecodeChars (cs : List Nat) : List Char := utf8DecodeAux cs.length cs

/-- `Buffer.prototype.toString('utf8')` producing a `String`. -/
def utf8Decode (bytes : List Nat) : String := String.mk (utf8DecodeChars bytes)

/-- The standard base64 alphabet. -/
def base64Alphabet : List Char :=
  "ABCDEFGHIJKLMNOPQRSTUVWXYZabcdefghijklmnopqrstuvwxyz0123456789+/".data

def b64CharOf (n : Nat) : Char := base64Alphabet.getD n 'A'

/-- Node `Buffer.prototype.toString('base64')`. -/
def base64EncodeChars : List Nat → List Char
  | b0 :: b1 :: b2 :: rest =>
    b64CharOf (b0 / 4) :: b64CharOf (b0 % 4 * 16 + b1 / 16) ::
      b64CharOf (b1 % 16 * 4 + b2 / 64) :: b64CharOf (b2 % 64) :: base64EncodeChars rest
  | [b0, b1] => [b64CharOf (b0 / 4), b64CharOf (b0 % 4 * 16 + b1 / 16), b64CharOf (b1 % 16 * 4), '=']
  | [b0] => [b64CharOf (b0 / 4), b64CharOf (b0 % 4 * 16), '=', '=']
  | [] => []

def base64Encode (bytes : List Nat) : String := String.mk (base64EncodeChars bytes)

/-- Base64 value of one character; Node also accepts the URL-safe alphabet. -/
def b64Val (c : Char) : Option Nat :=
  if 'A' ≤ c ∧ c ≤ 'Z' then some (c.toNat - 65)
  else if 'a' ≤ c ∧ c ≤ 'z' then some (c.toNat - 97 + 26)
  else if '0' ≤ c ∧ c ≤ '9' then some (c.toNat - 48 + 52)
  else if c = '+' then some 62
  else if c = '/' then some 63
  else if c = '-' then some 62
  else if c = '_' then some 63
  else none

/-- Collect sextets, stop at `'='`, skip invalid characters (Node's
forgiving decoder). -/
def b64Sextets : List Char → List Nat
  | [] => []
  | c :: rest =>
    if c = '=' then []
    else
      match b64Val c with
      | some v => v :: b64Sextets rest
      | none => b64Sextets rest

def b64Pack : List Nat → List Nat
  | a :: b :: c :: d :: rest =>
    (a * 4 + b / 16) :: (b % 16 * 16 + c / 4) :: (c % 4 * 64 + d) :: b64Pack rest
  | [a, b] => [a * 4 + b / 16]
  | [a, b, c] => [a * 4 + b / 16, b % 16 * 16 + c / 4]
  | _ => []

/-- Node `Buffer.from(s, 'base64')` as a byte list. -/
def base64Decode (s : String) : List Nat := b64Pack (b64Sextets s.data)

/-! ## `extractPageNumberFromFileName`

Models the regex `/page[_-]?(\d+)|(\d+)[_-]?page/i` with JavaScript
`String.prototype.match` semantics: scan left to right, at each position try
the first alternative then the second, groups are greedy digit runs. -/

/-- Match the literal `page` case-insensitively; return the rest. -/
def stripPageCI : List Char → Option (List Char)
  | p :: a :: g :: e :: rest =>
    if p.toLower = 'p' ∧ a.toLower = 'a' ∧ g.toLower = 'g' ∧ e.toLower = 'e' then some rest
    else none
  | _ => none

def digitRun (cs : List Char) : List Char := cs.takeWhile Char.isDigit

/-- `[_-]?(\d+)`: an optional single separator then a non-empty digit run
(backtracking into the no-separator branch can never succeed because the
separator is not a digit). -/
def digitsAfterOptSep : List Char → Option (List Char)
  | [] => none
  | c :: rest =>
    if c = '_' ∨ c = '-' then
      if (digitRun rest).isEmpty then none else some (digitRun rest)
    else
      if (digitRun (c :: rest)).isEmpty then none else some (digitRun (c :: rest))

/-- First alternative `page[_-]?(\d+)` at this position. -/
def pageThenDigits (cs : List Char) : Option (List Char) :=
  match stripPageCI cs with
  | some rest => digitsAfterOptSep rest
  | none => none

def pageAt (cs : List Char) : Bool := (stripPageCI cs).isSome

/-- Second alternative `(\d+)[_-]?page` at this position: the greedy digit
run, then an optional separator, then `page`.  A shorter digit run cannot
match (the following character would be a digit, matching neither `[_-]`
nor `p`). -/
def digitsThenPage (cs : List Char) : Option (List Char) :=
  if (digitRun cs).isEmpty then none
  else
    match cs.drop (digitRun cs).length with
    | [] => none
    | c :: rest =>
      if c = '_' ∨ c = '-' then
        if pageAt rest then some (digitRun cs) else none
      else
        if pageAt (c :: rest) then some (digitRun cs) else none

def findPageToken : List Char → Option (List Char)
  | [] => none
  | c :: rest =>
    match pageThenDigits (c :: rest) with
    | some ds => some ds
    | none =>
      match digitsThenPage (c :: rest) with
      | some ds => some ds
      | none => findPageToken rest

/-- `parseInt` on a non-empty digit string. -/
def digitsToNat (cs : List Char) : Nat :=
  cs.foldl (fun acc c => acc * 10 + (c.toNat - 48)) 0

/-- `extractPageNumberFromFileName(fileName)`. -/
def extractPageNumberFromFileName (fileName : String) : Option Nat :=
  (findPageToken fileName.data).map digitsToNat

/-! ## Container extraction data model -/

/-- `ProcessedImage`; `data` holds the base64 encoding of the entry bytes. -/
structure ProcessedImage where
  id : String
  name : String
  type : String
  data : String
  pageNumber : Option Nat
deriving DecidableEq

/-- `PDFConversionResult.metadata` (always present in both construction
sites of the source). -/
structure ResultMetadata where
  pageCount : Nat
  title : Option String
  processingTime : Nat
deriving DecidableEq

structure PDFConversionResult where
  markdown : String
  images : List ProcessedImage
  metadata : ResultMetadata
deriving DecidableEq

/-- One yauzl entry: its `fileName`, its decompressed bytes, and whether
`openReadStream`/the read stream succeeds (`readable = false` models the
per-entry read errors the source logs and skips). -/
structure ZipEntry where
  fileName : String
  content : List Nat
  readable : Bool
deriving DecidableEq

/-- The result container at the yauzl boundary: `corrupt` when
`yauzl.fromBuffer` reports an error (`err.message` carried), otherwise the
entries in archive order. -/
inductive ZipContainer where
  | corrupt (msg : String)
  | entries (es : List ZipEntry)
deriving DecidableEq

/-! ## `extractZipContent` -/

/-- `getMimeTypeFromExtension(fileName)`. -/
def getMimeTypeFromExtension (fileName : String) : String :=
  if String.mk (extAfterLastDot (strToLower fileName).data) == "jpg" then "image/jpeg"
  else if String.mk (extAfterLastDot (strToLower fileName).data) == "jpeg" then "image/jpeg"
  else if String.mk (extAfterLastDot (strToLower fileName).data) == "png" then "image/png"
  else if String.mk (extAfterLastDot (strToLower fileName).data) == "gif" then "image/gif"
  else if String.mk (extAfterLastDot (strToLower fileName).data) == "webp" then "image/webp"
  else if String.mk (extAfterLastDot (strToLower fileName).data) == "bmp" then "image/bmp"
  else "image/jpeg"

/-- The test `fileName.match(/\.(jpg|jpeg|png|gif|webp|bmp)$/i)`: the
lowercased name ends in one of the six image suffixes. -/
def isImageFileName (fileName : String) : Bool :=
  strEndsWith (strToLower fileName) ".jpg" ||
  strEndsWith (strToLower fileName) ".jpeg" ||
  strEndsWith (strToLower fileName) ".png" ||
  strEndsWith (strToLower fileName) ".gif" ||
  strEndsWith (strToLower fileName) ".webp" ||
  strEndsWith (strToLower fileName) ".bmp"

/-- Processing of one entry of the reopened archive (the `zipfile2.on('entry')`
handler plus the read-stream `end` handler).  `ids` supplies the generated
image id (`img_${Date.now()}_${random}`), indexed by how many images have
been collected so far.  Directory entries and unreadable entries are skipped;
`.md`/`.markdown` names (case-sensitive `endsWith`) append UTF-8 text plus
`'\n\n'`; image-suffixed names (case-insensitive regex) push a
`ProcessedImage`; `.json` entries are parsed only for logging; everything
else is skipped. -/
def processEntry (ids : Nat → String) (acc : String × List ProcessedImage)
    (e : ZipEntry) : String × List ProcessedImage :=
  if strEndsWith e.fileName "/" then acc
  else if !e.readable then acc
  else if strEndsWith e.fileName ".md" || strEndsWith e.fileName ".markdown" then
    (acc.1 ++ utf8Decode e.content ++ "\n\n", acc.2)
  else if isImageFileName e.fileName then
    (acc.1, acc.2 ++ [{
      id := ids acc.2.length,
      name := e.fileName,
      type := getMimeTypeFromExtension e.fileName,
      data := base64Encode e.content,
      pageNumber := extractPageNumberFromFileName e.fileName }])
  else acc

/-- `extractZipContent(zipBuffer)`: reject when the archive fails to open,
otherwise fold over the entries in order, accumulating markdown text and
images. -/
def extractZipContent (ids : Nat → String) (z : ZipContainer) :
    Except String (String × List ProcessedImage) :=
  match z with
  | .corrupt msg => .error ("Failed to open ZIP file: " ++ msg)
  | .entries es => .ok (es.foldl (processEntry ids) ("", []))

/-! ## `parseZipContent` -/

/-- The `if (img.pageNumber)` guard and page line of the fallback loop:
JavaScript truthiness makes page number 0 behave like an absent one. -/
def pageLineFor (img : ProcessedImage) : String :=
  match img.pageNumber with
  | some k => if k = 0 then "" else "- Page: " ++ Nat.repr k ++ "\n"
  | none => ""

/-- One iteration of `images.forEach((img, index) => ...)`. -/
def imageFallbackLine (index : Nat) (img : ProcessedImage) : String :=
  "\n## Image " ++ Nat.repr (index + 1) ++ ": " ++ img.name ++ "\n" ++ pageLineFor img

def renderImageList (index : Nat) : List ProcessedImage → String
  | [] => ""
  | img :: rest => imageFallbackLine index img ++ renderImageList (index + 1) rest

/-- The fallback document synthesized when markdown is blank but images
exist. -/
def fallbackForImages (images : List ProcessedImage) : String :=
  "# PDF Content\n\nThis PDF contains " ++ Nat.repr images.length ++
    " image(s). The images have been extracted and can be processed by vision-capable models.\n" ++
    renderImageList 0 images

/-- The fixed placeholder when neither markdown nor images were found. -/
def noContentPlaceholder : String :=
  "# PDF Content\n\nNo readable content found in this PDF."

/-- `Math.max(1, ...images.map(img => img.pageNumber || 1))`. -/
def pageCountOf (images : List ProcessedImage) : Nat :=
  (images.map (fun img =>
    match img.pageNumber with
    | some k => if k = 0 then 1 else k
    | none => 1)).foldl max 1

/-- `extractTitleFromMarkdown(markdown)`: models `/^#\s+(.+)$/m` followed by
`trim()` — the first line of the form `#`, whitespace, non-empty rest. -/
def titleOfLine (line : List Char) : Option (List Char) :=
  match line with
  | '#' :: rest =>
    if (rest.takeWhile Char.isWhitespace).isEmpty then none
    else if (rest.dropWhile Char.isWhitespace).isEmpty then none
    else some (rest.dropWhile Char.isWhitespace)
  | _ => none

def extractTitleFromMarkdown (markdown : String) : Option String :=
  (linesOf markdown.data).findSome? fun line =>
    (titleOfLine line).map fun cs => String.mk (trimChars cs)

/-- The error document produced by the `catch` branch of `parseZipContent`. -/
def processingErrorMarkdown (msg : String) : String :=
  "# PDF Processing Error\n\nFailed to parse PDF content: " ++ msg ++
    "\n\nThis may be due to an unsupported PDF format or corrupted file."

/-- `parseZipContent(zipBuffer)`: on a readable container, apply fallback
synthesis and build result metadata; a rejected extraction is caught and
turned into an error document with no images and `pageCount = 1`.
`now` is `Date.now()` at metadata-construction time. -/
def parseZipContent (ids : Nat → String) (now : Nat) (z : ZipContainer) :
    PDFConversionResult :=
  match extractZipContent ids z with
  | .ok (markdownContent, images) =>
    if strTrim markdownContent = "" then
      if images.length > 0 then
        { markdown := fallbackForImages images
          images := images
          metadata := { pageCount := pageCountOf images
                        title := extractTitleFromMarkdown (fallbackForImages images)
                        processingTime := now } }
      else
        { markdown := noContentPlaceholder
          images := images
          metadata := { pageCount := pageCountOf images
                        title := extractTitleFromMarkdown noContentPlaceholder
                        processingTime := now } }
    else
      { markdown := markdownContent
        images := images
        metadata := { pageCount := pageCountOf images
                      title := extractTitleFromMarkdown markdownContent
                      processingTime := now } }
  | .error msg =>
    { markdown := processingErrorMarkdown msg
      images := []
      metadata := { pageCount := 1, title := none, processingTime := now } }

/-! ## `cleanBase64` and `uploadFile` -/

/-- Line terminators that JavaScript `.` does not match. -/
def isLineTerm (c : Char) : Bool :=
  c == '\n' || c == '\r' || c == ' ' || c == ' '

/-- The string starts with the literal `data:`. -/
def hasDataUrlStart (cs : List Char) : Bool :=
  startsWithChars "data:".data cs

/-- The string starts with the literal `;base64,`. -/
def isBase64MarkerAt (cs : List Char) : Bool :=
  startsWithChars ";base64,".data cs

/-- Index of the first `;base64,` reachable by the lazy `.*?` (no line
terminator may intervene). -/
def findBase64Marker : List Char → Option Nat
  | [] => none
  | c :: rest =>
    if isBase64MarkerAt (c :: rest) then some 0
    else if isLineTerm c then none
    else (findBase64Marker rest).map (· + 1)

/-- `cleanBase64(base64String)`: `replace(/^data:.*?;base64,/, '')`. -/
def cleanBase64 (s : String) : String :=
  if hasDataUrlStart s.data then
    match findBase64Marker (s.data.drop 5) with
    | some i => String.mk (s.data.drop (5 + i + 8))
    | none => s
  else s

/-- The body bytes PUT by `uploadFile`:
`Buffer.from(this.cleanBase64(base64PDF), 'base64')`. -/
def uploadedBytes (base64PDF : String) : List Nat :=
  base64Decode (cleanBase64 base64PDF)

/-! ## `convertPDFToMarkdownWithImages` -/

/-- All remote interactions of one `convert` call, fixed up front: the
upload-URL response, the PUT outcome, the status stream, and the result
download. -/
structure TransportOracle where
  uploadUrlResponse : FetchResponse
  uploadPutOk : Bool
  uploadPutStatus : Nat
  uploadPutStatusText : String
  statuses : Nat → List ExtractResultEntry
  downloadOk : Bool
  downloadStatus : Nat
  container : ZipContainer

/-- `uploadFile(uploadUrl, base64PDF)` outcome: the PUT body is
`uploadedBytes base64PDF` and only the HTTP status check can fail. -/
def uploadFileResult (t : TransportOracle) (_body : List Nat) :
    Except MineruError Unit :=
  if t.uploadPutOk then .ok ()
  else .error (.fileUploadFailed t.uploadPutStatus t.uploadPutStatusText)

/-- `downloadAndParseResult(zipUrl)`. -/
def downloadAndParseResult (t : TransportOracle) (ids : Nat → String)
    (now : Nat) : Except MineruError PDFConversionResult :=
  if !t.downloadOk then .error (.downloadFailed t.downloadStatus)
  else .ok (parseZipContent ids now t.container)

/-- `convertPDFToMarkdownWithImages(base64PDF)`: request an upload URL,
upload, wait for completion, download and parse.  The `catch` block only
logs and rethrows, so every stage error propagates unchanged.  (The
`getBatchResult` enabled-check inside the loop cannot fire on this path:
`requestUploadUrl` already required `isEnabled`.) -/
def convertPDFToMarkdownWithImages (cfg : MineruConfig) (t : TransportOracle)
    (ids : Nat → String) (now : Nat) (base64PDF : String) (maxWaitTime : Nat) :
    Except MineruError PDFConversionResult := do
  let _uploadTarget ← (requestUploadUrl cfg t.uploadUrlResponse).1
  let _ ← uploadFileResult t (uploadedBytes base64PDF)
  let _zipUrl ← (waitForBatchCompletion t.statuses maxWaitTime).1
  downloadAndParseResult t ids now

/-! ## String lemmas -/

theorem str_data_append (s t : String) : (s ++ t).data = s.data ++ t.data := rfl

theorem str_append_assoc (a b c : String) : a ++ b ++ c = a ++ (b ++ c) :=
  congrArg String.mk (List.append_assoc a.data b.data c.data)

theorem str_empty_append (s : String) : "" ++ s = s :=
  congrArg String.mk (List.nil_append s.data)

theorem startsWithChars_append_self (p t : List Char) :
    startsWithChars p (p ++ t) = true := by
  induction p with
  | nil => rfl
  | cons c cs ih => simp [startsWithChars, ih]

theorem startsWithChars_mismatch (p : List Char) :
    ∀ (q r : List Char), startsWithChars (p.take q.length) q = false →
      startsWithChars p (q ++ r) = false := by
  induction p with
  | nil =>
    intro q r h
    exfalso
    cases q with
    | nil => exact Bool.noConfusion h
    | cons c q' => exact Bool.noConfusion h
  | cons x p' ih =>
    intro q r h
    cases q with
    | nil => exact Bool.noConfusion h
    | cons c q' =>
      simp only [List.length_cons, List.take_succ_cons, startsWithChars] at h ⊢
      cases hxc : x == c with
      | false => simp [hxc]
      | true =>
        simp only [hxc, Bool.true_and] at h ⊢
        exact ih q' r h

theorem subOccurs_of_startsWith (pat s : List Char)
    (h : startsWithChars pat s = true) : subOccurs pat s = true := by
  cases s with
  | nil =>
    cases pat with
    | nil => rfl
    | cons p ps => exact Bool.noConfusion h
  | cons c rest => simp [subOccurs, h]

theorem subOccurs_append_left (pat : List Char) :
    ∀ (x s : List Char), subOccurs pat s = true → subOccurs pat (x ++ s) = true := by
  intro x
  induction x with
  | nil => intro s h; exact h
  | cons c cs ih =>
    intro s h
    show (startsWithChars pat (c :: (cs ++ s)) || subOccurs pat (cs ++ s)) = true
    rw [ih s h, Bool.or_true]

theorem subOccurs_middle (pat x y : List Char) :
    subOccurs pat (x ++ (pat ++ y)) = true :=
  subOccurs_append_left pat x _
    (subOccurs_of_startsWith pat _ (startsWithChars_append_self pat y))

theorem mem_of_startsWithChars (p : List Char) :
    ∀ (cs : List Char), startsWithChars p cs = true → ∀ a ∈ p, a ∈ cs := by
  induction p with
  | nil => intro cs _ a ha; exact absurd ha (List.not_mem_nil a)
  | cons x p' ih =>
    intro cs h a ha
    cases cs with
    | nil => exact Bool.noConfusion h
    | cons c cs' =>
      simp only [startsWithChars, Bool.and_eq_true, beq_iff_eq] at h
      rcases List.mem_cons.mp ha with rfl | ha'
      · rw [h.1]; exact List.mem_cons_self c cs'
      · exact List.mem_cons_of_mem c (ih cs' h.2 a ha')

/-! ## Claim theorem: corrupt container (C3) -/

theorem processingErrorMarkdown_split (m : String) :
    processingErrorMarkdown m =
      "# PDF Processing Error" ++
        ("\n\nFailed to parse PDF content: " ++ m ++
          "\n\nThis may be due to an unsupported PDF format or corrupted file.") := by
  unfold processingErrorMarkdown
  have hlit : ("# PDF Processing Error\n\nFailed to parse PDF content: " : String) =
      "# PDF Processing Error" ++ "\n\nFailed to parse PDF content: " := rfl
  rw [hlit, str_append_assoc, str_append_assoc, str_append_assoc]

/-- C3: when the downloaded container fails to open as an archive, the full
conversion pipeline still returns (rather than throws) a result whose
markdown begins with the error heading, with no images and `pageCount = 1`. -/
theorem convert_corrupt_container_spec (cfg : MineruConfig) (t : TransportOracle)
    (ids : Nat → String) (now : Nat) (base64PDF : String) (maxWaitTime : Nat)
    (uploadTarget : String × String) (zipUrl msg : String)
    (h1 : (requestUploadUrl cfg t.uploadUrlResponse).1 = .ok uploadTarget)
    (h2 : t.uploadPutOk = true)
    (h3 : (waitForBatchCompletion t.statuses maxWaitTime).1 = .ok zipUrl)
    (h4 : t.downloadOk = true)
    (h5 : t.container = .corrupt msg) :
    ∃ rest,
      convertPDFToMarkdownWithImages cfg t ids now base64PDF maxWaitTime =
        .ok { markdown := "# PDF Processing Error" ++ rest
              images := []
              metadata := { pageCount := 1, title := none, processingTime := now } } := by
  refine ⟨"\n\nFailed to parse PDF content: " ++ ("Failed to open ZIP file: " ++ msg) ++
    "\n\nThis may be due to an unsupported PDF format or corrupted file.", ?_⟩
  unfold convertPDFToMarkdownWithImages
  rw [h1]
  unfold uploadFileResult
  rw [h2]
  simp only [if_true]
  rw [h3]
  unfold downloadAndParseResult
  rw [h4]
  simp only [Bool.not_true, Bool.false_eq_true, if_false, if_neg]
  rw [h5]
  unfold parseZipContent extractZipContent
  simp only [Except.bind]
  rw [processingErrorMarkdown_split, str_append_assoc]
  rfl

theorem convert_corrupt_container_spec_witness :
    ∃ rest,
      convertPDFToMarkdownWithImages ⟨"https://api", "tok", true⟩
        { uploadUrlResponse := ⟨true, 200, "OK", ⟨0, "ok", ⟨"b1", ["u1"]⟩⟩⟩
          uploadPutOk := true
          uploadPutStatus := 200
          uploadPutStatusText := "OK"
          statuses := demoDoneStatuses
          downloadOk := true
          downloadStatus := 200
          container := .corrupt "bad zip" }
        (fun _ => "img") 7 "SGVsbG8=" 300000 =
        .ok { markdown := "# PDF Processing Error" ++ rest
              images := []
              metadata := { pageCount := 1, title := none, processingTime := 7 } } := by
  have h3 : (waitForBatchCompletion demoDoneStatuses 300000).1 =
      .ok "https://example.com/result.zip" :=
    congrArg Prod.fst (waitLoop_done demoDoneStatuses 300000 1
      ⟨JobState.done, some "https://example.com/result.zip", none⟩
      "https://example.com/result.zip" (by decide)
      (fun m hm => by rw [Nat.lt_one_iff.mp hm]; decide) rfl rfl rfl (by decide))
  exact convert_corrupt_container_spec ⟨"https://api", "tok", true⟩ _ (fun _ => "img")
    7 "SGVsbG8=" 300000 ("b1", "u1") "https://example.com/result.zip" "bad zip"
    rfl rfl h3 rfl rfl

/-! ## Claim theorem: data-URL prefix stripping (C10) -/

theorem drop_length_append {α : Type} (l1 : List α) :
    ∀ (l2 : List α) (n : Nat), (l1 ++ l2).drop (l1.length + n) = l2.drop n := by
  induction l1 with
  | nil => intro l2 n; rw [List.nil_append, List.length_nil, Nat.zero_add]
  | cons c cs ih =>
    intro l2 n
    show (c :: (cs ++ l2)).drop (cs.length + 1 + n) = l2.drop n
    rw [Nat.add_right_comm, Nat.add_one, List.drop_succ_cons]
    exact ih l2 n

theorem findBase64Marker_through (tail : List Char) :
    ∀ (m : List Char), (∀ c ∈ m, c ≠ ';' ∧ isLineTerm c = false) →
      findBase64Marker
          (m ++ ';' :: 'b' :: 'a' :: 's' :: 'e' :: '6' :: '4' :: ',' :: tail) =
        some m.length := by
  intro m
  induction m with
  | nil => intro _; rfl
  | cons c m' ih =>
    intro h
    have hc := h c (List.mem_cons_self c m')
    have hmark : isBase64MarkerAt
        (c :: (m' ++ ';' :: 'b' :: 'a' :: 's' :: 'e' :: '6' :: '4' :: ',' :: tail)) = false := by
      show ((';' == c) && startsWithChars ('b' :: 'a' :: 's' :: 'e' :: '6' :: '4' :: ',' :: [])
        (m' ++ ';' :: 'b' :: 'a' :: 's' :: 'e' :: '6' :: '4' :: ',' :: tail)) = false
      rw [beq_eq_false_iff_ne.mpr (Ne.symm hc.1), Bool.false_and]
    show findBase64Marker
        (c :: (m' ++ ';' :: 'b' :: 'a' :: 's' :: 'e' :: '6' :: '4' :: ',' :: tail)) =
      some (m'.length + 1)
    simp only [findBase64Marker, hmark, hc.2, Bool.false_eq_true, if_false]
    rw [ih (fun a ha => h a (List.mem_cons_of_mem c ha))]
    rfl

theorem cleanBase64_data_url (mime b : String)
    (hm : ∀ c ∈ mime.data, c ≠ ';' ∧ isLineTerm c = false)
    (hb : ':' ∉ b.data) :
    cleanBase64 ("data:" ++ mime ++ ";base64," ++ b) = b ∧ cleanBase64 b = b := by
  constructor
  · have hdata : ("data:" ++ mime ++ ";base64," ++ b).data =
        'd' :: 'a' :: 't' :: 'a' :: ':' ::
          (mime.data ++ ';' :: 'b' :: 'a' :: 's' :: 'e' :: '6' :: '4' :: ',' :: b.data) := by
      rw [str_data_append, str_data_append, str_data_append]
      simp only [List.append_assoc]
      rfl
    unfold cleanBase64
    rw [hdata]
    have hstart : hasDataUrlStart
        ('d' :: 'a' :: 't' :: 'a' :: ':' ::
          (mime.data ++ ';' :: 'b' :: 'a' :: 's' :: 'e' :: '6' :: '4' :: ',' :: b.data)) = true := rfl
    rw [hstart]
    simp only [if_true]
    have hdrop5 : ('d' :: 'a' :: 't' :: 'a' :: ':' ::
        (mime.data ++ ';' :: 'b' :: 'a' :: 's' :: 'e' :: '6' :: '4' :: ',' :: b.data)).drop 5 =
        mime.data ++ ';' :: 'b' :: 'a' :: 's' :: 'e' :: '6' :: '4' :: ',' :: b.data := rfl
    rw [hdrop5, findBase64Marker_through b.data mime.data hm]
    have hdropAll : ('d' :: 'a' :: 't' :: 'a' :: ':' ::
        (mime.data ++ ';' :: 'b' :: 'a' :: 's' :: 'e' :: '6' :: '4' :: ',' :: b.data)).drop
          (5 + mime.data.length + 8) = b.data := by
      have h1 : 5 + mime.data.length + 8 =
          (['d', 'a', 't', 'a', ':'] : List Char).length + (mime.data.length + 8) := by
        simp
        omega
      rw [show ('d' :: 'a' :: 't' :: 'a' :: ':' ::
          (mime.data ++ ';' :: 'b' :: 'a' :: 's' :: 'e' :: '6' :: '4' :: ',' :: b.data)) =
          (['d', 'a', 't', 'a', ':'] : List Char) ++
            (mime.data ++ ';' :: 'b' :: 'a' :: 's' :: 'e' :: '6' :: '4' :: ',' :: b.data) from rfl,
        h1, drop_length_append, drop_length_append]
      rfl
    show String.mk (('d' :: 'a' :: 't' :: 'a' :: ':' ::
        (mime.data ++ ';' :: 'b' :: 'a' :: 's' :: 'e' :: '6' :: '4' :: ',' :: b.data)).drop
          (5 + mime.data.length + 8)) = b
    rw [hdropAll]
  · unfold cleanBase64
    cases hq : hasDataUrlStart b.data with
    | true =>
      exfalso
      have : ':' ∈ b.data :=
        mem_of_startsWithChars "data:".data b.data hq ':' (by decide)
      exact hb this
    | false => simp

/-- C10: for a base64 payload (which cannot contain `':'`) and a data-URL
prefix `data:<mime>;base64,` whose media type contains no `';'` and no line
terminator, `uploadFile` PUTs exactly the same decoded bytes for the prefixed
string as for the bare payload: `cleanBase64` strips the prefix before
decoding and never affects the uploaded body. -/
theorem uploadFile_data_url_prefix_spec (mime b : String)
    (hm : ∀ c ∈ mime.data, c ≠ ';' ∧ isLineTerm c = false)
    (hb : ':' ∉ b.data) :
    uploadedBytes ("data:" ++ mime ++ ";base64," ++ b) = uploadedBytes b := by
  obtain ⟨h1, h2⟩ := cleanBase64_data_url mime b hm hb
  unfold uploadedBytes
  rw [h1, h2]

theorem uploadFile_data_url_prefix_spec_witness :
    uploadedBytes ("data:" ++ "application/pdf" ++ ";base64," ++ "SGVsbG8=") =
      uploadedBytes "SGVsbG8=" :=
  uploadFile_data_url_prefix_spec "application/pdf" "SGVsbG8="
    (by decide) (by decide)

/-! ## Claim theorem: entry classification by suffix (C5) -/

theorem strEndsWith_append_self (s suf : String) :
    strEndsWith (s ++ suf) suf = true := by
  unfold strEndsWith listEndsWith
  rw [str_data_append, List.reverse_append]
  exact startsWithChars_append_self suf.data.reverse s.data.reverse

theorem strEndsWith_append_eq (s suf pat : String) :
    strEndsWith (s ++ suf) pat =
      startsWithChars pat.data.reverse (suf.data.reverse ++ s.data.reverse) := by
  unfold strEndsWith listEndsWith
  rw [str_data_append, List.reverse_append]

theorem strToLower_append (a b : String) :
    strToLower (a ++ b) = strToLower a ++ strToLower b := by
  unfold strToLower
  rw [str_data_append, List.map_append]
  rfl

theorem takeWhile_append_all {p : Char → Bool} (l1 : List Char)
    (h : ∀ c ∈ l1, p c = true) :
    ∀ l2, List.takeWhile p (l1 ++ l2) = l1 ++ List.takeWhile p l2 := by
  induction l1 with
  | nil => intro l2; rfl
  | cons c cs ih =>
    intro l2
    have hc : p c = true := h c (List.mem_cons_self c cs)
    show List.takeWhile p (c :: (cs ++ l2)) = c :: (cs ++ List.takeWhile p l2)
    rw [List.takeWhile_cons, hc]
    simp only [if_true]
    rw [ih (fun a ha => h a (List.mem_cons_of_mem c ha)) l2]

theorem extAfterLastDot_append_nodot (xs ys : List Char)
    (h : ∀ c ∈ ys, (!(c == '.')) = true) :
    extAfterLastDot (xs ++ '.' :: ys) = ys := by
  unfold extAfterLastDot
  rw [List.reverse_append, List.reverse_cons]
  have hrev : ∀ c ∈ ys.reverse, (!(c == '.')) = true :=
    fun c hc => h c (List.mem_reverse.mp hc)
  rw [List.append_assoc, takeWhile_append_all ys.reverse hrev]
  have hstop : List.takeWhile (fun c => !(c == '.'))
      (['.'] ++ xs.reverse) = [] := rfl
  rw [hstop, List.append_nil, List.reverse_reverse]

/-- C5 counterexample: classification of markdown entries is case-sensitive.
An entry named `A.MD` whose bytes decode to `hi` is skipped entirely — the
markdown buffer stays empty and no image is produced — whereas the claim's
case-insensitive reading requires the buffer to become `hi\n\n`. -/
theorem extract_uppercase_md_cex :
    extractZipContent (fun _ => "img") (.entries [⟨"A.MD", [104, 105], true⟩]) =
      .ok ("", []) ∧ utf8Decode [104, 105] = "hi" :=
  ⟨rfl, rfl⟩

/-- C5 (amended): entry classification by filename suffix is case-sensitive
for markdown (`endsWith('.md')`/`endsWith('.markdown')` — only the lowercase
spellings append the UTF-8 decoded text), and case-insensitive for images
(the `/i` regex — any letter case of the six image suffixes is collected,
with the MIME type derived from the lowercased extension).  In particular a
mixed-case `.Markdown` entry is skipped. -/
theorem processEntry_suffix_classification_spec (ids : Nat → String)
    (md : String) (imgs : List ProcessedImage) (base : String)
    (content : List Nat) :
    (processEntry ids (md, imgs) ⟨base ++ ".md", content, true⟩ =
      (md ++ utf8Decode content ++ "\n\n", imgs)) ∧
    (processEntry ids (md, imgs) ⟨base ++ ".markdown", content, true⟩ =
      (md ++ utf8Decode content ++ "\n\n", imgs)) ∧
    (processEntry ids (md, imgs) ⟨base ++ ".PNG", content, true⟩ =
      (md, imgs ++ [{ id := ids imgs.length, name := base ++ ".PNG",
                      type := "image/png", data := base64Encode content,
                      pageNumber := extractPageNumberFromFileName (base ++ ".PNG") }])) ∧
    (processEntry ids (md, imgs) ⟨base ++ ".JpEg", content, true⟩ =
      (md, imgs ++ [{ id := ids imgs.length, name := base ++ ".JpEg",
                      type := "image/jpeg", data := base64Encode content,
                      pageNumber := extractPageNumberFromFileName (base ++ ".JpEg") }])) ∧
    (processEntry ids (md, imgs) ⟨base ++ ".Markdown", content, true⟩ = (md, imgs)) := by
  refine ⟨?_, ?_, ?_, ?_, ?_⟩
  · show processEntry ids (md, imgs) ⟨base ++ ".md", content, true⟩ =
      (md ++ utf8Decode content ++ "\n\n", imgs)
    unfold processEntry
    rw [strEndsWith_append_eq _ _ "/",
      startsWithChars_mismatch _ _ _ (by decide),
      strEndsWith_append_self]
    rfl
  · unfold processEntry
    rw [strEndsWith_append_eq _ _ "/",
      startsWithChars_mismatch _ _ _ (by decide),
      strEndsWith_append_eq _ _ ".md",
      startsWithChars_mismatch _ _ _ (by decide),
      strEndsWith_append_self]
    rfl
  · unfold processEntry isImageFileName
    rw [strEndsWith_append_eq _ _ "/",
      startsWithChars_mismatch _ _ _ (by decide),
      strEndsWith_append_eq _ _ ".md",
      startsWithChars_mismatch _ _ _ (by decide),
      strEndsWith_append_eq _ _ ".markdown",
      startsWithChars_mismatch _ _ _ (by decide),
      strToLower_append,
      show strToLower ".PNG" = ".png" from rfl,
      strEndsWith_append_eq _ _ ".jpg",
      startsWithChars_mismatch _ _ _ (by decide),
      strEndsWith_append_eq _ _ ".jpeg",
      startsWithChars_mismatch _ _ _ (by decide),
      strEndsWith_append_self]
    have hmime : getMimeTypeFromExtension (base ++ ".PNG") = "image/png" := by
      unfold getMimeTypeFromExtension
      rw [strToLower_append, show strToLower ".PNG" = ".png" from rfl,
        str_data_append,
        show (".png" : String).data = '.' :: 'p' :: 'n' :: 'g' :: [] from rfl,
        extAfterLastDot_append_nodot _ _ (by decide)]
      rfl
    rw [hmime]
    rfl
  · unfold processEntry isImageFileName
    rw [strEndsWith_append_eq _ _ "/",
      startsWithChars_mismatch _ _ _ (by decide),
      strEndsWith_append_eq _ _ ".md",
      startsWithChars_mismatch _ _ _ (by decide),
      strEndsWith_append_eq _ _ ".markdown",
      startsWithChars_mismatch _ _ _ (by decide),
      strToLower_append,
      show strToLower ".JpEg" = ".jpeg" from rfl,
      strEndsWith_append_eq _ _ ".jpg",
      startsWithChars_mismatch _ _ _ (by decide),
      strEndsWith_append_self]
    have hmime : getMimeTypeFromExtension (base ++ ".JpEg") = "image/jpeg" := by
      unfold getMimeTypeFromExtension
      rw [strToLower_append, show strToLower ".JpEg" = ".jpeg" from rfl,
        str_data_append,
        show (".jpeg" : String).data = '.' :: 'j' :: 'p' :: 'e' :: 'g' :: [] from rfl,
        extAfterLastDot_append_nodot _ _ (by decide)]
      rfl
    rw [hmime]
    rfl
  · unfold processEntry isImageFileName
    rw [strEndsWith_append_eq _ _ "/",
      startsWithChars_mismatch _ _ _ (by decide),
      strEndsWith_append_eq _ _ ".md",
      startsWithChars_mismatch _ _ _ (by decide),
      strEndsWith_append_eq _ _ ".markdown",
      startsWithChars_mismatch _ _ _ (by decide),
      strToLower_append,
      show strToLower ".Markdown" = ".markdown" from rfl,
      strEndsWith_append_eq _ _ ".jpg",
      startsWithChars_mismatch _ _ _ (by decide),
      strEndsWith_append_eq _ _ ".jpeg",
      startsWithChars_mismatch _ _ _ (by decide),
      strEndsWith_append_eq _ _ ".png",
      startsWithChars_mismatch _ _ _ (by decide),
      strEndsWith_append_eq _ _ ".gif",
      startsWithChars_mismatch _ _ _ (by decide),
      strEndsWith_append_eq _ _ ".webp",
      startsWithChars_mismatch _ _ _ (by decide),
      strEndsWith_append_eq _ _ ".bmp",
      startsWithChars_mismatch _ _ _ (by decide)]
    rfl

/-! ## Claim theorem: extractor idempotence (C7) -/

/-- Every field of a `ProcessedImage` except the generated `id`. -/
def stripId (img : ProcessedImage) : String × String × String × Option Nat :=
  (img.name, img.type, img.data, img.pageNumber)

theorem foldl_processEntry_ext (ids1 ids2 : Nat → String) :
    ∀ (es : List ZipEntry) (md : String) (l1 l2 : List ProcessedImage),
      l1.length = l2.length → l1.map stripId = l2.map stripId →
      (es.foldl (processEntry ids1) (md, l1)).1 =
        (es.foldl (processEntry ids2) (md, l2)).1 ∧
      (es.foldl (processEntry ids1) (md, l1)).2.map stripId =
        (es.foldl (processEntry ids2) (md, l2)).2.map stripId ∧
      (es.foldl (processEntry ids1) (md, l1)).2.length =
        (es.foldl (processEntry ids2) (md, l2)).2.length := by
  intro es
  induction es with
  | nil => intro md l1 l2 hlen hmap; exact ⟨rfl, hmap, hlen⟩
  | cons e es ih =>
    intro md l1 l2 hlen hmap
    rw [List.foldl_cons, List.foldl_cons]
    unfold processEntry
    split_ifs
    · exact ih md l1 l2 hlen hmap
    · exact ih md l1 l2 hlen hmap
    · exact ih _ l1 l2 hlen hmap
    · refine ih md (l1 ++ [_]) (l2 ++ [_]) ?_ ?_
      · simp [hlen]
      · simp only [List.map_append, hmap]
        rfl
    · exact ih md l1 l2 hlen hmap

theorem pageLineFor_congr (a b : ProcessedImage)
    (h : a.pageNumber = b.pageNumber) : pageLineFor a = pageLineFor b := by
  unfold pageLineFor
  rw [h]

theorem imageFallbackLine_congr (j : Nat) (a b : ProcessedImage)
    (hn : a.name = b.name) (hp : a.pageNumber = b.pageNumber) :
    imageFallbackLine j a = imageFallbackLine j b := by
  unfold imageFallbackLine
  rw [hn, pageLineFor_congr a b hp]

theorem renderImageList_congr :
    ∀ (l1 l2 : List ProcessedImage) (j : Nat),
      l1.map stripId = l2.map stripId →
      renderImageList j l1 = renderImageList j l2 := by
  intro l1
  induction l1 with
  | nil =>
    intro l2 j h
    cases l2 with
    | nil => rfl
    | cons b bs => exact absurd h (by simp)
  | cons a as ih =>
    intro l2 j h
    cases l2 with
    | nil => exact absurd h (by simp)
    | cons b bs =>
      simp only [List.map_cons, List.cons.injEq] at h
      obtain ⟨hab, hrest⟩ := h
      have hn : a.name = b.name := congrArg (fun p => p.1) hab
      have hp : a.pageNumber = b.pageNumber := congrArg (fun p => p.2.2.2) hab
      show imageFallbackLine j a ++ renderImageList (j + 1) as =
        imageFallbackLine j b ++ renderImageList (j + 1) bs
      rw [imageFallbackLine_congr j a b hn hp, ih bs (j + 1) hrest]

theorem pageCountMap_congr :
    ∀ (l1 l2 : List ProcessedImage),
      l1.map stripId = l2.map stripId →
      l1.map (fun img => match img.pageNumber with
        | some k => if k = 0 then 1 else k
        | none => 1) =
      l2.map (fun img => match img.pageNumber with
        | some k => if k = 0 then 1 else k
        | none => 1) := by
  intro l1
  induction l1 with
  | nil =>
    intro l2 h
    cases l2 with
    | nil => rfl
    | cons b bs => exact absurd h (by simp)
  | cons a as ih =>
    intro l2 h
    cases l2 with
    | nil => exact absurd h (by simp)
    | cons b bs =>
      simp only [List.map_cons, List.cons.injEq] at h ⊢
      obtain ⟨hab, hrest⟩ := h
      have hp : a.pageNumber = b.pageNumber := congrArg (fun p => p.2.2.2) hab
      exact ⟨by rw [hp], ih bs hrest⟩

theorem pageCountOf_congr (l1 l2 : List ProcessedImage)
    (h : l1.map stripId = l2.map stripId) : pageCountOf l1 = pageCountOf l2 := by
  unfold pageCountOf
  rw [pageCountMap_congr l1 l2 h]

theorem forall₂_of_stripId :
    ∀ (l1 l2 : List ProcessedImage), l1.map stripId = l2.map stripId →
      List.Forall₂ (fun a b : ProcessedImage =>
        a.name = b.name ∧ a.type = b.type ∧ a.data = b.data ∧
          a.pageNumber = b.pageNumber) l1 l2 := by
  intro l1
  induction l1 with
  | nil =>
    intro l2 h
    cases l2 with
    | nil => exact List.Forall₂.nil
    | cons b bs => exact absurd h (by simp)
  | cons a as ih =>
    intro l2 h
    cases l2 with
    | nil => exact absurd h (by simp)
    | cons b bs =>
      simp only [List.map_cons, List.cons.injEq] at h
      obtain ⟨hab, hrest⟩ := h
      exact List.Forall₂.cons
        ⟨congrArg (fun p => p.1) hab, congrArg (fun p => p.2.1) hab,
          congrArg (fun p => p.2.2.1) hab, congrArg (fun p => p.2.2.2) hab⟩
        (ih bs hrest)

/-- C7: the Container Extractor is deterministic up to the generated image
ids — two runs of `parseZipContent` on the same container bytes, with
different id supplies and clocks, produce byte-identical markdown, image
sequences identical in every field except `id` (same order and length), and
the same page count. -/
theorem extractor_idempotent_spec (ids1 ids2 : Nat → String)
    (now1 now2 : Nat) (z : ZipContainer) :
    (parseZipContent ids1 now1 z).markdown = (parseZipContent ids2 now2 z).markdown ∧
    List.Forall₂ (fun a b : ProcessedImage =>
      a.name = b.name ∧ a.type = b.type ∧ a.data = b.data ∧
        a.pageNumber = b.pageNumber)
      (parseZipContent ids1 now1 z).images (parseZipContent ids2 now2 z).images ∧
    (parseZipContent ids1 now1 z).metadata.pageCount =
      (parseZipContent ids2 now2 z).metadata.pageCount := by
  cases z with
  | corrupt msg => exact ⟨rfl, List.Forall₂.nil, rfl⟩
  | entries es =>
    obtain ⟨hmd, hmap, hlen⟩ := foldl_processEntry_ext ids1 ids2 es "" [] [] rfl rfl
    rcases hE1 : es.foldl (processEntry ids1) ("", []) with ⟨md1, imgs1⟩
    rcases hE2 : es.foldl (processEntry ids2) ("", []) with ⟨md2, imgs2⟩
    rw [hE1, hE2] at hmd hmap hlen
    simp only at hmd hmap hlen
    simp only [parseZipContent, extractZipContent, hE1, hE2]
    subst hmd
    by_cases htrim : strTrim md1 = ""
    · rw [if_pos htrim, if_pos htrim]
      by_cases hpos : imgs1.length > 0
      · have hpos2 : imgs2.length > 0 := hlen ▸ hpos
        rw [if_pos hpos, if_pos hpos2]
        have hfb : fallbackForImages imgs1 = fallbackForImages imgs2 := by
          unfold fallbackForImages
          rw [hlen, renderImageList_congr imgs1 imgs2 0 hmap]
        exact ⟨hfb, forall₂_of_stripId _ _ hmap, pageCountOf_congr _ _ hmap⟩
      · have hpos2 : ¬ imgs2.length > 0 := hlen ▸ hpos
        rw [if_neg hpos, if_neg hpos2]
        exact ⟨rfl, forall₂_of_stripId _ _ hmap, pageCountOf_congr _ _ hmap⟩
    · rw [if_neg htrim, if_neg htrim]
      exact ⟨rfl, forall₂_of_stripId _ _ hmap, pageCountOf_congr _ _ hmap⟩

/-! ## Claim theorem: fallback synthesis (C4) -/

theorem string_eq_of_data {s t : String} (h : s.data = t.data) : s = t := by
  cases s
  cases t
  exact congrArg String.mk h

/-- Placeholder image for safe indexing. -/
def noImage : ProcessedImage := ⟨"", "", "", "", none⟩

theorem strContains_middle (x pat y : String) :
    strContains (x ++ (pat ++ y)) pat = true := by
  unfold strContains
  rw [str_data_append, str_data_append]
  exact subOccurs_middle pat.data x.data y.data

theorem strContains_of_decomp (s pat x y : String) (hs : s = x ++ (pat ++ y)) :
    strContains s pat = true := by
  rw [hs]
  exact strContains_middle x pat y

theorem renderImageList_decomp :
    ∀ (l : List ProcessedImage) (j i : Nat), i < l.length →
      ∃ x y : String, renderImageList j l =
        x ++ (imageFallbackLine (j + i) (l.getD i noImage) ++ y) := by
  intro l
  induction l with
  | nil => intro j i hi; exact absurd hi (by simp)
  | cons a rest ih =>
    intro j i hi
    cases i with
    | zero =>
      refine ⟨"", renderImageList (j + 1) rest, ?_⟩
      rw [str_empty_append, Nat.add_zero]
      rfl
    | succ i' =>
      obtain ⟨x, y, hxy⟩ := ih (j + 1) i' (by simpa using hi)
      refine ⟨imageFallbackLine j a ++ x, y, ?_⟩
      show imageFallbackLine j a ++ renderImageList (j + 1) rest = _
      rw [hxy, ← str_append_assoc (imageFallbackLine j a) x _]
      have harith : j + 1 + i' = j + (i' + 1) := by omega
      rw [harith]
      rfl

theorem parseZip_markdown_fallback (ids : Nat → String) (now : Nat)
    (es : List ZipEntry) (md : String) (imgs : List ProcessedImage)
    (hx : extractZipContent ids (.entries es) = .ok (md, imgs))
    (hempty : strTrim md = "") (hne : imgs ≠ []) :
    (parseZipContent ids now (.entries es)).markdown = fallbackForImages imgs := by
  have hfold : es.foldl (processEntry ids) ("", []) = (md, imgs) := by
    unfold extractZipContent at hx
    exact Except.ok.inj hx
  simp only [parseZipContent, extractZipContent, hfold]
  rw [if_pos hempty, if_pos (List.length_pos.mpr hne)]

theorem parseZip_markdown_placeholder (ids : Nat → String) (now : Nat)
    (es : List ZipEntry) (md : String) (imgs : List ProcessedImage)
    (hx : extractZipContent ids (.entries es) = .ok (md, imgs))
    (hempty : strTrim md = "") (hnil : imgs = []) :
    (parseZipContent ids now (.entries es)).markdown = noContentPlaceholder := by
  have hfold : es.foldl (processEntry ids) ("", []) = (md, imgs) := by
    unfold extractZipContent at hx
    exact Except.ok.inj hx
  simp only [parseZipContent, extractZipContent, hfold]
  rw [if_pos hempty, if_neg (by simp [hnil])]

/-- C4 (amended): when the accumulated markdown is blank and images exist,
the synthesized fallback document mentions the number of images and, for
each image in order, contains the `## Image (i+1): name` block; the page
line is emitted only when the inferred page number is known *and nonzero*
(JavaScript truthiness drops page number 0).  When no markdown and no images
were found, the fixed "no readable content" placeholder is produced. -/
theorem parseZipContent_fallback_spec (ids : Nat → String) (now : Nat)
    (es : List ZipEntry) (md : String) (imgs : List ProcessedImage)
    (hx : extractZipContent ids (.entries es) = .ok (md, imgs))
    (hempty : strTrim md = "") :
    (imgs = [] →
      (parseZipContent ids now (.entries es)).markdown = noContentPlaceholder) ∧
    (imgs ≠ [] →
      strContains (parseZipContent ids now (.entries es)).markdown
        ("This PDF contains " ++ Nat.repr imgs.length ++ " image(s)") = true ∧
      ∀ i, i < imgs.length →
        strContains (parseZipContent ids now (.entries es)).markdown
          ("\n## Image " ++ Nat.repr (i + 1) ++ ": " ++
            (imgs.getD i noImage).name ++ "\n") = true ∧
        ∀ k, (imgs.getD i noImage).pageNumber = some k → k ≠ 0 →
          strContains (parseZipContent ids now (.entries es)).markdown
            ("\n## Image " ++ Nat.repr (i + 1) ++ ": " ++
              (imgs.getD i noImage).name ++ "\n- Page: " ++ Nat.repr k ++ "\n") =
            true) := by
  constructor
  · intro hnil
    exact parseZip_markdown_placeholder ids now es md imgs hx hempty hnil
  · intro hne
    have hmark := parseZip_markdown_fallback ids now es md imgs hx hempty hne
    rw [hmark]
    constructor
    · apply strContains_of_decomp _ _ "# PDF Content\n\n"
        (". The images have been extracted and can be processed by vision-capable models.\n" ++
          renderImageList 0 imgs)
      apply string_eq_of_data
      simp only [fallbackForImages, str_data_append, List.append_assoc]
      rfl
    · intro i hi
      obtain ⟨x, y, hxy⟩ := renderImageList_decomp imgs 0 i hi
      rw [Nat.zero_add] at hxy
      constructor
      · apply strContains_of_decomp _ _
          ("# PDF Content\n\nThis PDF contains " ++ Nat.repr imgs.length ++
            " image(s). The images have been extracted and can be processed by vision-capable models.\n" ++ x)
          (pageLineFor (imgs.getD i noImage) ++ y)
        unfold fallbackForImages
        rw [hxy]
        apply string_eq_of_data
        simp only [imageFallbackLine, str_data_append, List.append_assoc]
      · intro k hk hk0
        have hline : imageFallbackLine i (imgs.getD i noImage) =
            ("\n## Image " ++ Nat.repr (i + 1) ++ ": " ++
              (imgs.getD i noImage).name ++ "\n- Page: " ++ Nat.repr k ++ "\n") := by
          simp only [imageFallbackLine, pageLineFor, hk]
          rw [if_neg hk0]
          apply string_eq_of_data
          simp only [str_data_append, List.append_assoc]
          rfl
        apply strContains_of_decomp _ _
          ("# PDF Content\n\nThis PDF contains " ++ Nat.repr imgs.length ++
            " image(s). The images have been extracted and can be processed by vision-capable models.\n" ++ x)
          y
        unfold fallbackForImages
        rw [hxy, hline]
        apply string_eq_of_data
        simp only [str_data_append, List.append_assoc]

/-- Image-id supply used by the concrete extraction examples. -/
def cexIds : Nat → String := fun n => "img" ++ Nat.repr n

/-- C4 counterexample: an image named `page-0.png` has a *known* inferred
page number (`some 0`), yet the synthesized fallback markdown contains no
`- Page:` line at all — `if (img.pageNumber)` treats page 0 as falsy, so the
claim "lists ... when known, its page number" fails at this input. -/
theorem parseZipContent_fallback_page0_cex :
    (parseZipContent cexIds 0 (.entries [⟨"page-0.png", [], true⟩])).images.map
      (fun img => img.pageNumber) = [some 0] ∧
    strContains (parseZipContent cexIds 0
      (.entries [⟨"page-0.png", [], true⟩])).markdown "- Page:" = false :=
  ⟨rfl, rfl⟩

/-- The spec's concrete fallback scenario: no `.md` entries, images
`page-3.png` then `cover.png`. -/
def fallbackDemoEntries : List ZipEntry :=
  [⟨"page-3.png", [1, 2], true⟩, ⟨"cover.png", [], true⟩]

theorem parseZipContent_fallback_spec_witness :
    strContains (parseZipContent cexIds 0 (.entries fallbackDemoEntries)).markdown
      "This PDF contains 2 image(s)" = true ∧
    strContains (parseZipContent cexIds 0 (.entries fallbackDemoEntries)).markdown
      "\n## Image 1: page-3.png\n- Page: 3\n" = true ∧
    strContains (parseZipContent cexIds 0 (.entries fallbackDemoEntries)).markdown
      "\n## Image 2: cover.png\n" = true ∧
    (parseZipContent cexIds 0 (.entries fallbackDemoEntries)).metadata.pageCount = 3 ∧
    (parseZipContent cexIds 0 (.entries fallbackDemoEntries)).images.map
      (fun img => img.pageNumber) = [some 3, none] := by
  have h := parseZipContent_fallback_spec cexIds 0 fallbackDemoEntries ""
    [⟨"img0", "page-3.png", "image/png", "AQI=", some 3⟩,
     ⟨"img1", "cover.png", "image/png", "", none⟩] rfl rfl
  have h2 := h.2 (by decide)
  refine ⟨h2.1, ?_, (h2.2 1 (by decide)).1, rfl, rfl⟩
  exact (h2.2 0 (by decide)).2 3 rfl (by decide)

end Mineru
